import Mathlib

/-!
Verification of the `HuggingFaceCheckpointer` callback
(`llmfoundry/callbacks/hf_checkpointer.py`).

This file shallowly embeds the parts of the callback that the claims
concern:

* the last-batch scheduling predicate `_is_last_batch`;
* the save-triggering guard of `run_event` together with the INIT-time
  validation branch;
* the state-dict gathering hook `tensor_hook`;
* the FIT_END child-process wait loop;
* the config transformation `transform_config`;
* the pretrained-name stamping step of `_save_checkpoint`;
* the license-file discovery `_maybe_get_license_filename`;
* the precision/dtype lookup of `__init__`.

Conventions: Python `Optional` values become `Option`; Python dicts
(ordered by insertion) become association lists `List (String × α)`;
`composer` `Time` values become the structure `TimeSpec`; the elapsed
training fraction becomes `Option ℚ`.  Machine reals do not occur in the
embedded fragments (the elapsed fraction is an exact ratio of integral
time counters in composer, so `ℚ` is faithful).
-/

/-- The `composer` `TimeUnit` enumeration (the members used by the
checkpointer: epoch, batch, token, sample, duration). -/
inductive TimeUnit
  | epoch
  | batch
  | token
  | sample
  | duration
  deriving DecidableEq, Repr

/-- A `composer` `Time` value: a unit together with an integral value
(the checkpointer only ever builds and compares integral times). -/
structure TimeSpec where
  unit : TimeUnit
  value : Nat
  deriving DecidableEq, Repr

/-- The fields of the composer `State` read by `_is_last_batch`:
`get_elapsed_duration()` (an optional fraction), `max_duration`,
`timestamp.batch`, `timestamp.epoch`, `timestamp.batch_in_epoch`, and
`dataloader_len`.  `dataloader_len` is modelled as a plain `Nat`: the
code asserts it is not `None` on the paths that read it. -/
structure TrainState where
  elapsed_duration : Option ℚ
  max_duration : TimeSpec
  batch : Nat
  epoch : Nat
  batch_in_epoch : Nat
  dataloader_len : Nat
  deriving DecidableEq, Repr

/-- `elapsed_duration is not None and elapsed_duration >= 1.0`. -/
def elapsedAtLeastOne : Option ℚ → Bool
  | none => false
  | some e => decide ((1 : ℚ) ≤ e)

/-- Embedding of `HuggingFaceCheckpointer._is_last_batch` (source lines
315–340).  `iv` is `self.save_interval`.  The Python expression
`state.timestamp.epoch == state.max_duration.value - 1` is computed in
`Int` because Python subtraction does not truncate at zero; and
`math.ceil` is the identity on the product of the two integers
`state.max_duration.value * state.dataloader_len`.  (With an empty
dataloader Python's `%` would raise `ZeroDivisionError`; the embedding
follows Lean's `x % 0 = x` convention there, and no claim exercises
that degenerate case.) -/
def is_last_batch (iv : TimeSpec) (s : TrainState) : Bool :=
  if elapsedAtLeastOne s.elapsed_duration then true
  else
    let epoch_complete := s.dataloader_len == s.batch_in_epoch
    let second_to_last_epoch := s.max_duration.unit == TimeUnit.epoch
      && ((s.epoch : Int) == (s.max_duration.value : Int) - 1)
    if iv.unit == TimeUnit.batch && second_to_last_epoch && epoch_complete then
      true
    else if iv.unit == TimeUnit.duration && iv.value == 1
        && s.max_duration.unit == TimeUnit.epoch then
      s.batch % (s.max_duration.value * s.dataloader_len) == 0
    else false

/-- Clause (a) of the claim: the elapsed training fraction is at least
`1.0`. -/
def lastBatchCondA (s : TrainState) : Prop :=
  ∃ e : ℚ, s.elapsed_duration = some e ∧ 1 ≤ e

/-- Clause (b) of the claim: the save interval is batch-denominated, the
max duration is in epoch units, and the current batch is the final batch
of the epoch whose (zero-based) epoch counter equals `max_epochs - 1`
(the batch count of the epoch is complete).  This is the condition the
source calls `second_to_last_epoch and epoch_complete`. -/
def lastBatchCondB (iv : TimeSpec) (s : TrainState) : Prop :=
  iv.unit = TimeUnit.batch ∧ s.max_duration.unit = TimeUnit.epoch ∧
    (s.epoch : Int) = (s.max_duration.value : Int) - 1 ∧
    s.dataloader_len = s.batch_in_epoch

/-- Clause (c) of the claim: the save interval is exactly one duration
unit (`1dur`), the max duration is in epoch units, and the current batch
index is divisible by `ceil(max_epochs * steps_per_epoch)`. -/
def lastBatchCondC (iv : TimeSpec) (s : TrainState) : Prop :=
  iv.unit = TimeUnit.duration ∧ iv.value = 1 ∧
    s.max_duration.unit = TimeUnit.epoch ∧
    s.batch % (s.max_duration.value * s.dataloader_len) = 0

/-- The `1dur` save interval. -/
def durOneInterval : TimeSpec := ⟨TimeUnit.duration, 1⟩

/-- The state of the claim's concrete scenario at batch `b`:
`max_duration = 3` epochs, `steps_per_epoch = 10`, so the elapsed
fraction is `b / 30`. -/
def threeEpochState (b : Nat) : TrainState :=
  { elapsed_duration := some ((b : ℚ) / 30)
    max_duration := ⟨TimeUnit.epoch, 3⟩
    batch := b
    epoch := b / 10
    batch_in_epoch := b % 10
    dataloader_len := 10 }

lemma elapsedAtLeastOne_iff (o : Option ℚ) :
    elapsedAtLeastOne o = true ↔ ∃ e : ℚ, o = some e ∧ 1 ≤ e := by
  cases o with
  | none => simp [elapsedAtLeastOne]
  | some e => simp [elapsedAtLeastOne]

lemma is_last_batch_iff_cond (iv : TimeSpec) (s : TrainState) :
    is_last_batch iv s = true ↔
      (lastBatchCondA s ∨ lastBatchCondB iv s ∨ lastBatchCondC iv s) := by
  unfold is_last_batch
  dsimp only
  split_ifs with h1 h2 h3
  · exact iff_of_true rfl (Or.inl ((elapsedAtLeastOne_iff _).mp h1))
  · simp only [Bool.and_eq_true, beq_iff_eq] at h2
    exact iff_of_true rfl
      (Or.inr (Or.inl ⟨h2.1.1, h2.1.2.1, h2.1.2.2, h2.2⟩))
  · simp only [Bool.and_eq_true, beq_iff_eq] at h2 h3
    simp only [beq_iff_eq]
    constructor
    · intro hmod
      exact Or.inr (Or.inr ⟨h3.1.1, h3.1.2, h3.2, hmod⟩)
    · rintro (hA | hB | hC)
      · exact absurd ((elapsedAtLeastOne_iff _).mpr hA) h1
      · exact absurd ⟨⟨hB.1, hB.2.1, hB.2.2.1⟩, hB.2.2.2⟩ h2
      · exact hC.2.2.2
  · simp only [Bool.and_eq_true, beq_iff_eq] at h2 h3
    refine iff_of_false not_false ?_
    rintro (hA | hB | hC)
    · exact absurd ((elapsedAtLeastOne_iff _).mpr hA) h1
    · exact h2 ⟨⟨hB.1, hB.2.1, hB.2.2.1⟩, hB.2.2.2⟩
    · exact h3 ⟨⟨hC.1, hC.2.1⟩, hC.2.2.1⟩

lemma threeEpochState_iff (b : Nat) (hb : b ≤ 30) :
    (is_last_batch durOneInterval (threeEpochState b) = true ↔
      b % 30 = 0) := by
  rw [is_last_batch_iff_cond]
  constructor
  · rintro (hA | hB | hC)
    · obtain ⟨e, he, hge⟩ := hA
      simp only [threeEpochState, Option.some.injEq] at he
      subst he
      rw [one_le_div (by norm_num : (0 : ℚ) < 30)] at hge
      have : (30 : Nat) ≤ b := by exact_mod_cast hge
      have hEq : b = 30 := le_antisymm hb this
      simp [hEq]
    · exact absurd hB.1 (by simp [durOneInterval])
    · simpa [threeEpochState] using hC.2.2.2
  · intro hmod
    refine Or.inr (Or.inr ⟨rfl, rfl, rfl, ?_⟩)
    simpa [threeEpochState] using hmod

/-- C1: `_is_last_batch` returns true exactly when (a) the elapsed
training fraction is at least 1.0, or (b) the save interval is
batch-denominated, the max duration is in epoch units, and the current
batch completes the epoch whose counter equals `max_epochs - 1`, or
(c) the save interval is exactly `1dur`, the max duration is in epoch
units, and the batch index is divisible by
`ceil(max_epochs * steps_per_epoch)`.  In the concrete scenario
`max_duration = 3ep`, `steps_per_epoch = 10`, `save_interval = 1dur`,
within the training run (`b ≤ 30`) it returns true exactly when
`b % 30 = 0`. -/
theorem is_last_batch_spec :
    (∀ (iv : TimeSpec) (s : TrainState),
      is_last_batch iv s = true ↔
        (lastBatchCondA s ∨ lastBatchCondB iv s ∨ lastBatchCondC iv s)) ∧
    (∀ b : Nat, b ≤ 30 →
      (is_last_batch durOneInterval (threeEpochState b) = true ↔
        b % 30 = 0)) :=
  ⟨is_last_batch_iff_cond, threeEpochState_iff⟩

/-- Witness for C1 at the concrete input `b = 30`. -/
theorem is_last_batch_spec_witness :
    is_last_batch durOneInterval (threeEpochState 30) = true ↔
      30 % 30 = 0 :=
  is_last_batch_spec.2 30 (by decide)

/-! ## The `run_event` save guard and INIT validation (source lines 256–298) -/

/-- The composer lifecycle events distinguished by `run_event`. -/
inductive Event
  | init
  | fit_end
  | otherEvent
  deriving DecidableEq, Repr

/-- A logger destination: either an `MLFlowLogger` or some other
destination type. -/
inductive LoggerDest
  | mlflow
  | otherDest
  deriving DecidableEq, Repr

/-- What one invocation of `run_event` reads from its `state`, `event`
and `logger` arguments: whether `state.get_elapsed_duration()` is not
`None`, the value of `self.check_interval(state, event)`, the current
batch index `state.timestamp.batch`, whether `state.model` is a
`HuggingFaceModel`, and the logger destination list. -/
structure EventCtx where
  event : Event
  elapsedSome : Bool
  check : Bool
  batch : Nat
  model_is_hf : Bool
  destinations : List LoggerDest
  deriving DecidableEq, Repr

/-- The configured options of the callback that the `run_event` guard
reads. -/
structure CallbackCfg where
  mlflow_registered_model_name : Option String
  deriving DecidableEq, Repr

/-- The observable outcome of one `run_event` invocation. -/
inductive RunOutcome
  | saved
  | noop
  | errUnsupportedModel
  | errNoRegistryLogger
  deriving DecidableEq, Repr

/-- Embedding of the branch structure of
`HuggingFaceCheckpointer.run_event` (source lines 256–298): the save
guard `get_elapsed_duration() is not None and check_interval(state,
event) and last_checkpoint_batch != state.timestamp.batch` triggers
`_save_checkpoint` (which first sets `last_checkpoint_batch` to the
current batch, source line 418); otherwise the INIT branch validates the
model wrapper type and the registry-logger configuration.  The FIT_END
branch is modelled separately by `fit_end_cleanup`.  Returns the updated
`last_checkpoint_batch` and the outcome. -/
def run_event (cfg : CallbackCfg) (last : Option Nat) (e : EventCtx) :
    Option Nat × RunOutcome :=
  if e.elapsedSome && e.check && !(last == some e.batch) then
    (some e.batch, RunOutcome.saved)
  else if e.event == Event.init then
    if !e.model_is_hf then
      (last, RunOutcome.errUnsupportedModel)
    else if cfg.mlflow_registered_model_name.isSome
        && !(e.destinations.any (· == LoggerDest.mlflow)) then
      (last, RunOutcome.errNoRegistryLogger)
    else (last, RunOutcome.noop)
  else (last, RunOutcome.noop)

/-- The batch indices at which a trace of `run_event` invocations
triggers `_save_checkpoint`, threading `last_checkpoint_batch` through
the trace. -/
def savedBatches (cfg : CallbackCfg) (last : Option Nat) :
    List EventCtx → List Nat
  | [] => []
  | e :: es =>
    let r := run_event cfg last e
    (if r.2 == RunOutcome.saved then [e.batch] else []) ++
      savedBatches cfg r.1 es

lemma run_event_saved_iff (cfg : CallbackCfg) (last : Option Nat)
    (e : EventCtx) :
    (run_event cfg last e).2 = RunOutcome.saved ↔
      (e.elapsedSome = true ∧ e.check = true ∧ last ≠ some e.batch) := by
  unfold run_event
  split_ifs with h1 h2 h3 h4
  · simp only [Bool.and_eq_true, Bool.not_eq_true', beq_eq_false_iff_ne,
      ne_eq] at h1
    exact iff_of_true rfl ⟨h1.1.1, h1.1.2, h1.2⟩
  all_goals
    simp only [Bool.and_eq_true, Bool.not_eq_true', beq_eq_false_iff_ne,
      ne_eq] at h1
    constructor
    · intro hcon; cases hcon
    · rintro ⟨ha, hb, hc⟩; exact h1 ⟨⟨ha, hb⟩, hc⟩

lemma run_event_saved_last (cfg : CallbackCfg) (last : Option Nat)
    (e : EventCtx) :
    (run_event cfg last e).1 = last ∨
      ((run_event cfg last e).1 = some e.batch ∧
        (run_event cfg last e).2 = RunOutcome.saved) := by
  unfold run_event
  split_ifs
  all_goals simp

/-- On a save, the new `last_checkpoint_batch` is the event's batch. -/
lemma run_event_last_of_saved (cfg : CallbackCfg) (last : Option Nat)
    (e : EventCtx) (h : (run_event cfg last e).2 = RunOutcome.saved) :
    (run_event cfg last e).1 = some e.batch := by
  rcases run_event_saved_last cfg last e with hsame | ⟨hb, _⟩
  · unfold run_event at *
    split_ifs at h hsame
    all_goals simp_all
  · exact hb

lemma savedBatches_nil (cfg : CallbackCfg) (last : Option Nat) :
    savedBatches cfg last [] = [] := rfl

lemma savedBatches_cons (cfg : CallbackCfg) (last : Option Nat)
    (e : EventCtx) (es : List EventCtx) :
    savedBatches cfg last (e :: es) =
      (if (run_event cfg last e).2 == RunOutcome.saved then [e.batch]
        else []) ++ savedBatches cfg (run_event cfg last e).1 es := rfl

lemma savedBatches_mem_le (cfg : CallbackCfg) :
    ∀ (es : List EventCtx) (last : Option Nat),
      (∀ x ∈ savedBatches cfg last es, ∃ e ∈ es, e.batch = x) := by
  intro es
  induction es with
  | nil => intro last x hx; simp [savedBatches] at hx
  | cons e es ih =>
    intro last x hx
    rw [savedBatches_cons] at hx
    rcases List.mem_append.mp hx with hx1 | hx2
    · refine ⟨e, List.mem_cons_self _ _, ?_⟩
      by_cases hs : (run_event cfg last e).2 == RunOutcome.saved
      · simp [hs] at hx1
        exact hx1.symm
      · simp [hs] at hx1
    · obtain ⟨e', he', hb⟩ := ih _ x hx2
      exact ⟨e', List.mem_cons_of_mem _ he', hb⟩

/-- With non-decreasing batch indices and a `last_checkpoint_batch`
strictly below every upcoming batch when a strict bound is needed, the
saved-batch trace is strictly increasing.  The hypothesis `hlast` says:
if `last = some b` then every upcoming event batch is at least `b`. -/
lemma savedBatches_chain (cfg : CallbackCfg) :
    ∀ (es : List EventCtx) (last : Option Nat),
      (es.map EventCtx.batch).Chain' (· ≤ ·) →
      (∀ b : Nat, last = some b → ∀ e ∈ es, b ≤ e.batch) →
      (savedBatches cfg last es).Chain' (· < ·) ∧
        (∀ x ∈ savedBatches cfg last es,
          (∀ b : Nat, last = some b → b < x) ∧ ∃ e ∈ es, e.batch = x) := by
  intro es
  induction es with
  | nil =>
    intro last _ _
    exact ⟨List.chain'_nil, by intro x hx; simp [savedBatches] at hx⟩
  | cons e es ih =>
    intro last hmono hlast
    have hmono' : (es.map EventCtx.batch).Chain' (· ≤ ·) :=
      (List.chain'_cons'.mp (by simpa using hmono)).2
    have hhead : ∀ e' ∈ es, e.batch ≤ e'.batch := by
      intro e' he'
      have hpair := List.chain'_iff_pairwise.mp hmono
      rw [List.map_cons, List.pairwise_cons] at hpair
      exact hpair.1 e'.batch (List.mem_map_of_mem EventCtx.batch he')
    rw [savedBatches_cons]
    by_cases hs : (run_event cfg last e).2 = RunOutcome.saved
    · have hlast' : (run_event cfg last e).1 = some e.batch :=
        run_event_last_of_saved cfg last e hs
      have hns : last ≠ some e.batch :=
        ((run_event_saved_iff cfg last e).mp hs).2.2
      have ihres := ih (run_event cfg last e).1 hmono' (by
        intro b hb e' he'
        rw [hlast'] at hb
        cases hb
        exact hhead e' he')
      constructor
      · simp only [hs, beq_self_eq_true, if_true, List.singleton_append]
        rw [List.chain'_cons']
        refine ⟨?_, ihres.1⟩
        intro y hy
        have hy' := List.mem_of_mem_head? hy
        have := (ihres.2 y hy').1 e.batch hlast'
        exact this
      · intro x hx
        simp only [hs, beq_self_eq_true, if_true, List.singleton_append,
          List.mem_cons] at hx
        rcases hx with hx | hx
        · subst hx
          constructor
          · intro b hb
            have hle := hlast b hb e (List.mem_cons_self _ _)
            have hne : b ≠ e.batch := by
              intro hcon; subst hcon; exact hns hb
            omega
          · exact ⟨e, List.mem_cons_self _ _, rfl⟩
        · have h1 := (ihres.2 x hx).1
          have h2 := (ihres.2 x hx).2
          refine ⟨?_, ?_⟩
          · intro b hb
            have hbe : b ≤ e.batch := hlast b hb e (List.mem_cons_self _ _)
            have := h1 e.batch hlast'
            omega
          · obtain ⟨e', he', rfl⟩ := h2
            exact ⟨e', List.mem_cons_of_mem _ he', rfl⟩
    · have hsb : ((run_event cfg last e).2 == RunOutcome.saved) = false := by
        simpa using hs
      have hlaste : (run_event cfg last e).1 = last := by
        rcases run_event_saved_last cfg last e with h | ⟨_, h2⟩
        · exact h
        · exact absurd h2 hs
      have ihres := ih (run_event cfg last e).1 hmono' (by
        intro b hb e' he'
        rw [hlaste] at hb
        exact hlast b hb e' (List.mem_cons_of_mem _ he'))
      simp only [hsb, Bool.false_eq_true, if_false, List.nil_append]
      refine ⟨ihres.1, ?_⟩
      intro x hx
      refine ⟨?_, ?_⟩
      · intro b hb
        have := (ihres.2 x hx).1 b (by rw [hlaste]; exact hb)
        exact this
      · obtain ⟨e', he', rfl⟩ := (ihres.2 x hx).2
        exact ⟨e', List.mem_cons_of_mem _ he', rfl⟩

/-- A concrete event used by witnesses: a periodic trigger at batch 7
with elapsed duration available. -/
def triggerAt7 : EventCtx :=
  { event := Event.otherEvent
    elapsedSome := true
    check := true
    batch := 7
    model_is_hf := true
    destinations := [] }

/-- C3: over any trace of `run_event` invocations whose batch indices
are non-decreasing (as they are within one training run), a checkpoint
save fires at most once per distinct batch index; a save never fires
from an invocation where `get_elapsed_duration()` is `None`; and when a
periodic trigger and the end-of-training trigger coincide on the same
batch (two triggering invocations at the same batch index), exactly one
checkpoint is saved. -/
theorem run_event_save_discipline :
    (∀ (cfg : CallbackCfg) (es : List EventCtx),
      (es.map EventCtx.batch).Chain' (· ≤ ·) →
      ∀ b : Nat, (savedBatches cfg none es).count b ≤ 1) ∧
    (∀ (cfg : CallbackCfg) (last : Option Nat) (e : EventCtx),
      (run_event cfg last e).2 = RunOutcome.saved → e.elapsedSome = true) ∧
    (∀ (cfg : CallbackCfg) (e1 e2 : EventCtx) (b : Nat),
      e1.batch = b → e2.batch = b →
      e1.elapsedSome = true → e1.check = true →
      e2.elapsedSome = true → e2.check = true →
      savedBatches cfg none [e1, e2] = [b]) := by
  refine ⟨?_, ?_, ?_⟩
  · intro cfg es hmono b
    have hchain :=
      (savedBatches_chain cfg es none hmono (by intro b' hb'; cases hb')).1
    have hpair := List.chain'_iff_pairwise.mp hchain
    have hnodup : (savedBatches cfg none es).Nodup :=
      hpair.imp (fun h => Nat.ne_of_lt h)
    exact List.nodup_iff_count_le_one.mp hnodup b
  · intro cfg last e h
    exact ((run_event_saved_iff cfg last e).mp h).1
  · intro cfg e1 e2 b hb1 hb2 he1 hc1 he2 hc2
    have hs1 : (run_event cfg none e1).2 = RunOutcome.saved :=
      (run_event_saved_iff cfg none e1).mpr ⟨he1, hc1, by simp⟩
    have hl1 : (run_event cfg none e1).1 = some e1.batch :=
      run_event_last_of_saved cfg none e1 hs1
    have hs2 : (run_event cfg (some e1.batch) e2).2 ≠ RunOutcome.saved := by
      intro hcon
      obtain ⟨_, _, hne⟩ := (run_event_saved_iff cfg (some e1.batch) e2).mp hcon
      exact hne (by rw [hb1, hb2])
    have hsb2 :
        ((run_event cfg (some e1.batch) e2).2 == RunOutcome.saved) = false :=
      by simpa using hs2
    rw [savedBatches_cons, hs1, hl1, savedBatches_cons, hsb2]
    simp [savedBatches_nil, hb1]

/-- Witness for C3 at concrete inputs: a single trigger at batch 7, and
two coinciding triggers at batch 7 which save exactly once. -/
theorem run_event_save_discipline_witness :
    (savedBatches ⟨none⟩ none [triggerAt7]).count 7 ≤ 1 ∧
    triggerAt7.elapsedSome = true ∧
    savedBatches ⟨none⟩ none [triggerAt7, triggerAt7] = [7] :=
  ⟨run_event_save_discipline.1 ⟨none⟩ [triggerAt7]
      (List.chain'_singleton _) 7,
    run_event_save_discipline.2.1 ⟨none⟩ none triggerAt7 (by decide),
    run_event_save_discipline.2.2 ⟨none⟩ triggerAt7 triggerAt7 7
      rfl rfl rfl rfl rfl rfl⟩

/-- C9: on the INIT event (where elapsed-duration information is not yet
available, so the save guard cannot fire), `run_event` raises the
unsupported-model error when the state's model is not a
`HuggingFaceModel`, and raises the missing-registry-logger error when a
registry model name is configured but no `MLFlowLogger` is among the
logger destinations; and on every non-INIT event neither error can be
raised (the only outcomes are a save or a no-op), so both failures occur
at INIT time, not at save time. -/
theorem run_event_init_validation :
    (∀ (cfg : CallbackCfg) (last : Option Nat) (e : EventCtx),
      e.event = Event.init → e.elapsedSome = false → e.model_is_hf = false →
      (run_event cfg last e).2 = RunOutcome.errUnsupportedModel) ∧
    (∀ (cfg : CallbackCfg) (last : Option Nat) (e : EventCtx),
      e.event = Event.init → e.elapsedSome = false → e.model_is_hf = true →
      cfg.mlflow_registered_model_name.isSome = true →
      (∀ d ∈ e.destinations, d ≠ LoggerDest.mlflow) →
      (run_event cfg last e).2 = RunOutcome.errNoRegistryLogger) ∧
    (∀ (cfg : CallbackCfg) (last : Option Nat) (e : EventCtx),
      e.event ≠ Event.init →
      (run_event cfg last e).2 = RunOutcome.saved ∨
        (run_event cfg last e).2 = RunOutcome.noop) := by
  refine ⟨?_, ?_, ?_⟩
  · intro cfg last e hev hel hm
    unfold run_event
    simp [hev, hel, hm]
  · intro cfg last e hev hel hm hname hdest
    have hany : (e.destinations.any (· == LoggerDest.mlflow)) = false := by
      rw [List.any_eq_false]
      intro d hd
      simpa using hdest d hd
    unfold run_event
    simp [hev, hel, hm, hname, hany]
  · intro cfg last e hev
    have hev' : (e.event == Event.init) = false := by simpa using hev
    unfold run_event
    simp only [hev', Bool.false_eq_true, if_false]
    split_ifs
    · exact Or.inl rfl
    · exact Or.inr rfl

/-- Witness for C9 at concrete INIT-time inputs. -/
theorem run_event_init_validation_witness :
    (run_event ⟨none⟩ none
      { event := Event.init, elapsedSome := false, check := false,
        batch := 0, model_is_hf := false, destinations := [] }).2 =
      RunOutcome.errUnsupportedModel ∧
    (run_event ⟨some "m"⟩ none
      { event := Event.init, elapsedSome := false, check := false,
        batch := 0, model_is_hf := true,
        destinations := [LoggerDest.otherDest] }).2 =
      RunOutcome.errNoRegistryLogger ∧
    ((run_event ⟨none⟩ none triggerAt7).2 = RunOutcome.saved ∨
      (run_event ⟨none⟩ none triggerAt7).2 = RunOutcome.noop) :=
  ⟨run_event_init_validation.1 ⟨none⟩ none _ rfl rfl rfl,
    run_event_init_validation.2.1 ⟨some "m"⟩ none _ rfl rfl rfl rfl
      (by intro d hd; simp at hd; simp [hd]),
    run_event_init_validation.2.2 ⟨none⟩ none triggerAt7 (by decide)⟩

/-! ## Precision handling in `__init__` (source lines 179–184) -/

/-- The torch dtypes the checkpointer can save in. -/
inductive Dtype
  | float32
  | float16
  | bfloat16
  deriving DecidableEq, Repr

/-- The dict literal `{'float32': torch.float32, 'float16':
torch.float16, 'bfloat16': torch.bfloat16}` of `__init__`; subscripting
it with any other key raises `KeyError`, modelled by `none`. -/
def dtypeOfPrecision : String → Option Dtype
  | "float32" => some Dtype.float32
  | "float16" => some Dtype.float16
  | "bfloat16" => some Dtype.bfloat16
  | _ => none

/-- The constructor failure mode under study. -/
inductive InitError
  | keyErrorPrecision
  deriving DecidableEq, Repr

/-- The constructed callback fields relevant to the precision claim. -/
structure CheckpointerHandle where
  precision : String
  dtype : Dtype
  deriving DecidableEq, Repr

/-- Embedding of the precision handling of
`HuggingFaceCheckpointer.__init__` (source lines 179–184): the dtype is
looked up eagerly in the dict at construction time, so an unsupported
precision string raises `KeyError` before any other state is set up. -/
def checkpointer_init (precision : String) :
    Except InitError CheckpointerHandle :=
  match dtypeOfPrecision precision with
  | some d => Except.ok { precision := precision, dtype := d }
  | none => Except.error InitError.keyErrorPrecision

/-- C10: construction succeeds exactly for the precision strings
`float32`, `float16` and `bfloat16`; every other precision raises a
`KeyError` at construction time, and a successfully constructed handle
carries the dtype of its precision string (one of the three supported
dtypes), so no unsupported precision can reach the gathering or save
path. -/
theorem checkpointer_init_precision :
    (∀ p : String,
      p ∉ ["float32", "float16", "bfloat16"] →
      checkpointer_init p = Except.error InitError.keyErrorPrecision) ∧
    (∀ p : String, (∃ h, checkpointer_init p = Except.ok h) ↔
      p ∈ ["float32", "float16", "bfloat16"]) ∧
    (∀ (p : String) (h : CheckpointerHandle),
      checkpointer_init p = Except.ok h →
      dtypeOfPrecision p = some h.dtype) := by
  have hnone : ∀ p : String, p ∉ ["float32", "float16", "bfloat16"] →
      dtypeOfPrecision p = none := by
    intro p hp
    simp only [List.mem_cons, List.mem_singleton, not_or] at hp
    unfold dtypeOfPrecision
    split
    · exact absurd rfl hp.1
    · exact absurd rfl hp.2.1
    · exact absurd rfl hp.2.2.1
    · rfl
  refine ⟨?_, ?_, ?_⟩
  · intro p hp
    unfold checkpointer_init
    rw [hnone p hp]
  · intro p
    constructor
    · rintro ⟨h, hh⟩
      by_contra hp
      have := hnone p hp
      unfold checkpointer_init at hh
      rw [this] at hh
      cases hh
    · intro hp
      simp only [List.mem_cons, List.not_mem_nil, or_false] at hp
      rcases hp with hp | hp | hp
      · subst hp; exact ⟨_, rfl⟩
      · subst hp; exact ⟨_, rfl⟩
      · subst hp; exact ⟨_, rfl⟩
  · intro p h hh
    unfold checkpointer_init at hh
    cases hd : dtypeOfPrecision p with
    | none => rw [hd] at hh; cases hh
    | some d =>
      rw [hd] at hh
      cases hh
      rfl

/-- Witness for C10 at concrete inputs: `fp8` is rejected at
construction, `bfloat16` is accepted. -/
theorem checkpointer_init_precision_witness :
    checkpointer_init "fp8" = Except.error InitError.keyErrorPrecision ∧
    ((∃ h, checkpointer_init "bfloat16" = Except.ok h) ↔
      "bfloat16" ∈ ["float32", "float16", "bfloat16"]) ∧
    dtypeOfPrecision "bfloat16" =
      some (CheckpointerHandle.mk "bfloat16" Dtype.bfloat16).dtype :=
  ⟨checkpointer_init_precision.1 "fp8" (by decide),
    checkpointer_init_precision.2.1 "bfloat16",
    checkpointer_init_precision.2.2 "bfloat16" ⟨"bfloat16", Dtype.bfloat16⟩
      rfl⟩

/-! ## The state-dict gathering hook `tensor_hook` (source lines 458–497)

The hook runs over the state dict entries; for each fully-qualified name
it materializes `DTensor`s with `full_tensor()` (offloading the result
to CPU on rank 0 since `cpu_offload` is `True`, and replacing it by
`None` on the other ranks), then casts any tensor value to the
configured dtype, and finally replaces the whole mapping by the empty
dict on every rank other than 0. -/

/-- A materialized torch tensor: its dtype, whether it lives in host
memory, and its (abstract) payload. -/
structure Tensor where
  dtype : Dtype
  onCpu : Bool
  data : List Int
  deriving DecidableEq, Repr

/-- A value of the state dict during gathering: a sharded `DTensor`
(carrying the full tensor that `full_tensor()` would reconstruct on the
accelerator), a materialized plain tensor, or Python `None` (assigned on
non-coordinator ranks). -/
inductive SDVal
  | dt (t : Tensor)
  | plain (t : Tensor)
  | pyNone
  deriving DecidableEq, Repr

/-- `DTensor.full_tensor()`: all-gather the shards into a full
accelerator-resident tensor. -/
def fullTensor (t : Tensor) : Tensor := { t with onCpu := false }

/-- `tensor.to(dtype=self.dtype)`. -/
def castTensor (d : Dtype) (t : Tensor) : Tensor := { t with dtype := d }

/-- `tensor.cpu()`. -/
def cpuTensor (t : Tensor) : Tensor := { t with onCpu := true }

/-- The per-entry body of the `for fqn in state_dict.keys()` loop of
`tensor_hook` (source lines 464–480), with `cpu_offload = True`. -/
def tensor_hook_entry (rank : Nat) (target : Dtype) (v : SDVal) : SDVal :=
  let v1 : SDVal :=
    match v with
    | SDVal.dt t =>
      let full := fullTensor t
      if rank = 0 then SDVal.plain (cpuTensor full) else SDVal.pyNone
    | x => x
  match v1 with
  | SDVal.plain t => SDVal.plain (castTensor target t)
  | x => x

/-- Embedding of `tensor_hook` applied to a gathered state dict (source
lines 458–483): transform every entry, then `if dist.get_global_rank()
!= 0: state_dict = {}`. -/
def tensor_hook (rank : Nat) (target : Dtype)
    (sd : List (String × SDVal)) : List (String × SDVal) :=
  let sd1 := sd.map fun kv => (kv.1, tensor_hook_entry rank target kv.2)
  if rank ≠ 0 then [] else sd1

/-- C2: after the gathering hook runs over a state dict whose entries
are tensors (the model's parameters are tensors or `DTensor`s, never
`None`), on the coordinator rank 0 every key is still present and maps
to a materialized (non-`DTensor`) tensor cast to the configured target
dtype, and on every rank other than 0 the state dict is empty. -/
theorem tensor_hook_gather_invariant :
    ∀ (rank : Nat) (target : Dtype) (sd : List (String × SDVal)),
      (∀ kv ∈ sd, kv.2 ≠ SDVal.pyNone) →
      (rank ≠ 0 → tensor_hook rank target sd = []) ∧
      (rank = 0 →
        (tensor_hook rank target sd).map Prod.fst = sd.map Prod.fst ∧
        ∀ kv ∈ tensor_hook rank target sd,
          ∃ t : Tensor, kv.2 = SDVal.plain t ∧ t.dtype = target) := by
  intro rank target sd hnn
  constructor
  · intro hrank
    unfold tensor_hook
    simp [hrank]
  · intro hrank
    subst hrank
    constructor
    · unfold tensor_hook
      simp
    · intro kv hkv
      unfold tensor_hook at hkv
      simp only [ne_eq, not_true_eq_false, if_neg, List.mem_map,
        not_false_eq_true] at hkv
      obtain ⟨⟨k, v⟩, hmem, hkv'⟩ := hkv
      have hv := hnn ⟨k, v⟩ hmem
      subst hkv'
      cases v with
      | dt t =>
        exact ⟨castTensor target (cpuTensor (fullTensor t)), by
          simp [tensor_hook_entry], rfl⟩
      | plain t =>
        exact ⟨castTensor target t, by simp [tensor_hook_entry], rfl⟩
      | pyNone => exact absurd rfl hv

/-- Witness for C2 at a concrete two-entry state dict (one `DTensor`,
one plain tensor) on ranks 0 and 1. -/
theorem tensor_hook_gather_invariant_witness :
    (tensor_hook 1 Dtype.bfloat16
        [("a", SDVal.dt ⟨Dtype.float32, false, [3]⟩),
          ("b", SDVal.plain ⟨Dtype.float32, true, [4]⟩)] = []) ∧
    ((tensor_hook 0 Dtype.bfloat16
        [("a", SDVal.dt ⟨Dtype.float32, false, [3]⟩),
          ("b", SDVal.plain ⟨Dtype.float32, true, [4]⟩)]).map Prod.fst =
      ["a", "b"] ∧
      ∀ kv ∈ tensor_hook 0 Dtype.bfloat16
        [("a", SDVal.dt ⟨Dtype.float32, false, [3]⟩),
          ("b", SDVal.plain ⟨Dtype.float32, true, [4]⟩)],
        ∃ t : Tensor, kv.2 = SDVal.plain t ∧ t.dtype = Dtype.bfloat16) :=
  ⟨(tensor_hook_gather_invariant 1 Dtype.bfloat16 _ (by decide)).1
      (by decide),
    (tensor_hook_gather_invariant 0 Dtype.bfloat16 _ (by decide)).2 rfl⟩

/-! ## The FIT_END wait loop (source lines 299–313)

The FIT_END branch of `run_event` polls `_all_child_processes_done()`
in a loop, sleeping 2 seconds between polls, raising `TimeoutError`
once the elapsed wait exceeds 3600 seconds, and removing the temporary
save directory only after the loop exits normally.  Real time is
modelled discretely: poll `k` happens after `k` sleeps, i.e. at
`pollIntervalSeconds * k` seconds of wait (the polls themselves are
instantaneous in the model), which is exactly the `wait_time` the code
compares against the timeout. -/

/-- `time.sleep(2)`. -/
def pollIntervalSeconds : Nat := 2

/-- `timeout = 3600`. -/
def childWaitTimeoutSeconds : Nat := 3600

/-- One run of the `while not self._all_child_processes_done()` loop,
starting at poll index `k`: returns `true` when the loop raises
`TimeoutError`, `false` when it exits because all child processes are
done.  `done k` is the result of the collective
`_all_child_processes_done()` at poll `k`. -/
def waitTimedOut (done : Nat → Bool) (k : Nat) : Bool :=
  if done k then false
  else if pollIntervalSeconds * k > childWaitTimeoutSeconds then true
  else waitTimedOut done (k + 1)
termination_by childWaitTimeoutSeconds / pollIntervalSeconds + 1 - k
decreasing_by
  simp only [pollIntervalSeconds, childWaitTimeoutSeconds] at *
  omega

/-- The observable outcome of the FIT_END branch: whether it raised the
timeout error, and whether `shutil.rmtree(self.temp_save_dir)` ran. -/
structure FitEndOutcome where
  timedOut : Bool
  tempRemoved : Bool
  deriving DecidableEq, Repr

/-- Embedding of the FIT_END branch of `run_event` (source lines
299–313): wait for the child processes, then remove the temporary save
directory (when one was recorded) only if the wait loop exited without
raising. -/
def fit_end_cleanup (done : Nat → Bool) (hasTempDir : Bool) :
    FitEndOutcome :=
  let t := waitTimedOut done 0
  { timedOut := t, tempRemoved := hasTempDir && !t }

lemma waitTimedOut_iff (done : Nat → Bool) :
    ∀ (n k : Nat), 1802 - k ≤ n → k ≤ 1801 →
      (waitTimedOut done k = true ↔
        ∀ j : Nat, k ≤ j → j ≤ 1801 → done j = false) := by
  intro n
  induction n with
  | zero => intro k hk hk'; omega
  | succ n ih =>
    intro k hk hkle
    rw [waitTimedOut]
    by_cases hd : done k = true
    · rw [if_pos hd]
      constructor
      · intro hcon; cases hcon
      · intro hall
        have := hall k le_rfl hkle
        rw [hd] at this
        cases this
    · rw [if_neg hd]
      by_cases hg : pollIntervalSeconds * k > childWaitTimeoutSeconds
      · rw [if_pos hg]
        simp only [pollIntervalSeconds, childWaitTimeoutSeconds] at hg
        constructor
        · intro _ j hj1 hj2
          have hjk : j = k := by omega
          subst hjk
          simpa using hd
        · intro _
          rfl
      · rw [if_neg hg]
        simp only [pollIntervalSeconds, childWaitTimeoutSeconds] at hg
        rw [ih (k + 1) (by omega) (by omega)]
        constructor
        · intro hall j hj1 hj2
          by_cases hjk : j = k
          · subst hjk
            simpa using hd
          · exact hall j (by omega) hj2
        · intro hall j hj1 hj2
          exact hall j (by omega) hj2

/-- C4: in the FIT_END branch, the poll interval is 2 seconds and the
timeout is 3600 seconds; the wait raises `TimeoutError` exactly when the
child processes are still not all done at every poll that happens before
the cumulative wait exceeds one hour (polls `0..1801`, i.e. through
3602 seconds of waiting); and the temporary save directory is removed
only when one was recorded, the loop did not time out, and some poll saw
all child processes done — never before they finish and never on the
timeout path. -/
theorem fit_end_wait_spec :
    (pollIntervalSeconds = 2 ∧ childWaitTimeoutSeconds = 3600) ∧
    (∀ (done : Nat → Bool) (hasTempDir : Bool),
      (fit_end_cleanup done hasTempDir).timedOut = true ↔
        ∀ j : Nat, j ≤ 1801 → done j = false) ∧
    (∀ (done : Nat → Bool) (hasTempDir : Bool),
      (fit_end_cleanup done hasTempDir).tempRemoved = true →
        hasTempDir = true ∧
        (fit_end_cleanup done hasTempDir).timedOut = false ∧
        ∃ j : Nat, j ≤ 1801 ∧ done j = true) := by
  have hiff : ∀ (done : Nat → Bool) (hasTempDir : Bool),
      (fit_end_cleanup done hasTempDir).timedOut = true ↔
        ∀ j : Nat, j ≤ 1801 → done j = false := by
    intro done hasTempDir
    show waitTimedOut done 0 = true ↔ _
    rw [waitTimedOut_iff done 1802 0 (by omega) (by omega)]
    constructor
    · intro hall j hj
      exact hall j (Nat.zero_le j) hj
    · intro hall j _ hj
      exact hall j hj
  refine ⟨⟨rfl, rfl⟩, hiff, ?_⟩
  intro done hasTempDir hrem
  have hrem' : hasTempDir = true ∧
      (fit_end_cleanup done hasTempDir).timedOut = false := by
    have : (fit_end_cleanup done hasTempDir).tempRemoved =
        (hasTempDir && !(fit_end_cleanup done hasTempDir).timedOut) := rfl
    rw [this] at hrem
    have hsplit : hasTempDir = true ∧
        (!(fit_end_cleanup done hasTempDir).timedOut) = true := by
      simpa using hrem
    exact ⟨hsplit.1, by simpa using hsplit.2⟩
  refine ⟨hrem'.1, hrem'.2, ?_⟩
  have hnot : ¬ ((fit_end_cleanup done hasTempDir).timedOut = true) := by
    rw [hrem'.2]
    simp
  rw [hiff done hasTempDir] at hnot
  push_neg at hnot
  obtain ⟨j, hj, hdj⟩ := hnot
  exact ⟨j, hj, by simpa using hdj⟩

/-- Witness for C4 with child processes that are done at the first poll
and a recorded temporary directory. -/
theorem fit_end_wait_spec_witness :
    (fit_end_cleanup (fun _ => true) true).tempRemoved = true ∧
    ((fit_end_cleanup (fun _ => true) true).timedOut = true ↔
      ∀ j : Nat, j ≤ 1801 → (fun _ : Nat => true) j = false) ∧
    (true = true ∧
      (fit_end_cleanup (fun _ => true) true).timedOut = false ∧
      ∃ j : Nat, j ≤ 1801 ∧ (fun _ : Nat => true) j = true) := by
  have hrem : (fit_end_cleanup (fun _ => true) true).tempRemoved = true := by
    unfold fit_end_cleanup
    rw [waitTimedOut]
    simp
  exact ⟨hrem, fit_end_wait_spec.2.1 (fun _ => true) true,
    fit_end_wait_spec.2.2 (fun _ => true) true hrem⟩

/-! ## `transform_config` (source lines 367–385)

The default implementation deep-copies the original config and then, if
and only if the config's `model_type` is `'mpt'`, normalizes three
fields in the copy: `attn_config['attn_impl'] = 'torch'`,
`init_device = 'cpu'`, and, when `getattr(config, 'ffn_config', {})`
contains the key `'moe_world_size'`, `ffn_config['moe_world_size'] = 1`.
-/

/-- The `attn_config` sub-dict: the `attn_impl` entry plus the other
entries (which the transformation never touches). -/
structure AttnConfig where
  attn_impl : String
  rest : List (String × String)
  deriving DecidableEq, Repr

/-- The `ffn_config` sub-dict: whether the key `moe_world_size` is
present (absence of the whole `ffn_config` attribute behaves the same
as absence of the key under `getattr(..., 'ffn_config', {})`), its
value, and the other entries. -/
structure FfnConfig where
  hasMoeWorldSize : Bool
  moe_world_size : Nat
  rest : List (String × String)
  deriving DecidableEq, Repr

/-- A HuggingFace `PretrainedConfig` as seen by `transform_config`:
`model_type`, the two sub-configs and the device field it may rewrite,
plus all remaining fields bundled untouched. -/
structure HFConfig where
  model_type : String
  attn_config : AttnConfig
  ffn_config : FfnConfig
  init_device : String
  other_fields : List (String × String)
  deriving DecidableEq, Repr

/-- Embedding of `HuggingFaceCheckpointer.transform_config` (source
lines 367–385).  `copy.deepcopy` followed by in-place mutation of the
copy is a pure record update in the embedding; the heap-level
no-mutation statement is `transform_config_heap` below. -/
def transform_config (c : HFConfig) : HFConfig :=
  let copied_config := c
  if copied_config.model_type = "mpt" then
    { copied_config with
        attn_config := { copied_config.attn_config with attn_impl := "torch" }
        init_device := "cpu"
        ffn_config :=
          if copied_config.ffn_config.hasMoeWorldSize then
            { copied_config.ffn_config with moe_world_size := 1 }
          else copied_config.ffn_config }
  else copied_config

/-- A default config, used only as the out-of-bounds fallback of heap
reads (a Python `list` access out of range would raise instead). -/
def emptyHFConfig : HFConfig :=
  { model_type := ""
    attn_config := ⟨"", []⟩
    ffn_config := ⟨false, 0, []⟩
    init_device := ""
    other_fields := [] }

/-- Heap-level version of `transform_config`, making the Python object
store explicit: addresses index a list of config objects,
`copy.deepcopy(original_config)` allocates a fresh object at a new
address, and the subsequent field assignments mutate only that new
object.  Returns the updated heap and the address of the copy. -/
def transform_config_heap (h : List HFConfig) (a : Nat) :
    List HFConfig × Nat :=
  let original_config := h.getD a emptyHFConfig
  (h ++ [transform_config original_config], h.length)

/-- An MPT config whose `attn_impl` is `flash` and whose `init_device`
is `cuda`: the transformation rewrites both. -/
def mptFlashConfig : HFConfig :=
  { model_type := "mpt"
    attn_config := ⟨"flash", [("attn_pdrop", "0.0")]⟩
    ffn_config := ⟨true, 8, []⟩
    init_device := "cuda"
    other_fields := [("d_model", "768")]
  }

/-- Counterexample to C5 as stated: for the MPT config
`mptFlashConfig`, `transform_config` does not return a config equal to
its input (it rewrites `attn_impl`, `init_device` and
`moe_world_size`), so the default transformation is not a no-op on
every config. -/
theorem transform_config_not_noop :
    transform_config mptFlashConfig ≠ mptFlashConfig := by decide

/-- C5 (amended): the default `transform_config` is a pure function of
its input (a deep copy is returned, the input object is never written),
and it is a no-op precisely up to the MPT normalization: for a config
whose `model_type` is not `'mpt'` the result equals the input in every
field; for an MPT config the result has `attn_impl = 'torch'`,
`init_device = 'cpu'` and, when present, `moe_world_size = 1`, and every
other field equals the corresponding input field. -/
theorem transform_config_default_spec :
    (∀ c : HFConfig, c.model_type ≠ "mpt" → transform_config c = c) ∧
    (∀ c : HFConfig, c.model_type = "mpt" →
      (transform_config c).model_type = c.model_type ∧
      (transform_config c).attn_config.attn_impl = "torch" ∧
      (transform_config c).attn_config.rest = c.attn_config.rest ∧
      (transform_config c).init_device = "cpu" ∧
      (transform_config c).ffn_config.hasMoeWorldSize =
        c.ffn_config.hasMoeWorldSize ∧
      (transform_config c).ffn_config.moe_world_size =
        (if c.ffn_config.hasMoeWorldSize then 1
          else c.ffn_config.moe_world_size) ∧
      (transform_config c).ffn_config.rest = c.ffn_config.rest ∧
      (transform_config c).other_fields = c.other_fields) := by
  constructor
  · intro c hc
    unfold transform_config
    rw [if_neg hc]
  · intro c hc
    unfold transform_config
    rw [if_pos hc]
    by_cases hm : c.ffn_config.hasMoeWorldSize
    · simp [hm]
    · simp [hm]

/-- Witness for C5 (amended) at concrete inputs: a non-MPT config is
untouched; the MPT config above is normalized. -/
theorem transform_config_default_spec_witness :
    (transform_config
        { model_type := "llama"
          attn_config := ⟨"flash", []⟩
          ffn_config := ⟨false, 0, []⟩
          init_device := "cuda"
          other_fields := [] } =
      { model_type := "llama"
        attn_config := ⟨"flash", []⟩
        ffn_config := ⟨false, 0, []⟩
        init_device := "cuda"
        other_fields := [] }) ∧
    (transform_config mptFlashConfig).attn_config.attn_impl = "torch" :=
  ⟨transform_config_default_spec.1 _ (by decide),
    (transform_config_default_spec.2 mptFlashConfig rfl).2.1⟩

/-- C6: the default `transform_config` is idempotent — transforming its
own output yields an equal config — and at the heap level it never
mutates the object at the input address: after the call, the input
address still holds the original config (all mutations go to the fresh
deep copy). -/
theorem transform_config_idempotent_nonmutating :
    (∀ c : HFConfig,
      transform_config (transform_config c) = transform_config c) ∧
    (∀ (h : List HFConfig) (a : Nat), a < h.length →
      ((transform_config_heap h a).1.getD a emptyHFConfig =
        h.getD a emptyHFConfig)) := by
  constructor
  · intro c
    by_cases hc : c.model_type = "mpt"
    · by_cases hm : c.ffn_config.hasMoeWorldSize
      · simp [transform_config, hc, hm]
      · simp [transform_config, hc, hm]
    · simp [transform_config, hc]
  · intro h a ha
    unfold transform_config_heap
    simp only [List.getD_eq_getElem?_getD]
    rw [List.getElem?_append, if_pos ha]

/-- Witness for C6 at the concrete MPT config and a one-object heap. -/
theorem transform_config_idempotent_nonmutating_witness :
    transform_config (transform_config mptFlashConfig) =
      transform_config mptFlashConfig ∧
    ((transform_config_heap [mptFlashConfig] 0).1.getD 0 emptyHFConfig =
      [mptFlashConfig].getD 0 emptyHFConfig) :=
  ⟨transform_config_idempotent_nonmutating.1 mptFlashConfig,
    transform_config_idempotent_nonmutating.2 [mptFlashConfig] 0
      (by decide)⟩

/-! ## Pretrained-name stamping in `_save_checkpoint` (source lines
540–548)

On the coordinator rank, after the gathered state dict is loaded into
the fresh model instance and the model/tokenizer transform hook has
run, the configured pretrained model name (when present) is stamped
onto the new instance: `name_or_path` always, and in PEFT mode also
`base_model.name_or_path` and `base_model_name_or_path` of every
`peft_config` entry.  This is the final rehydration step that touches
these fields. -/

/-- One entry of `model.peft_config` (keyed by adapter name). -/
structure PeftConfigEntry where
  base_model_name_or_path : String
  rest : List (String × String)
  deriving DecidableEq, Repr

/-- The fields of the rehydrated model instance that the stamping step
may write: its own `name_or_path`, its base model's `name_or_path`, and
the `peft_config` dict (empty and unused for non-PEFT models). -/
structure RehydratedModel where
  name_or_path : String
  base_model_name_or_path_field : String
  peft_config : List (String × PeftConfigEntry)
  deriving DecidableEq, Repr

/-- Embedding of the stamping step (source lines 540–548):
`pretrained` is `self.pretrained_model_name`, `usingPeft` is
`self.using_peft`. -/
def stamp_pretrained_name (pretrained : Option String) (usingPeft : Bool)
    (m : RehydratedModel) : RehydratedModel :=
  match pretrained with
  | none => m
  | some name =>
    let m1 := { m with name_or_path := name }
    if usingPeft then
      { m1 with
          base_model_name_or_path_field := name
          peft_config := m1.peft_config.map fun kv =>
            (kv.1, { kv.2 with base_model_name_or_path := name }) }
    else m1

/-- C7: when a pretrained model name is configured and the model uses a
PEFT adapter, after the stamping step of `_save_checkpoint` the new
model instance's `name_or_path`, its base model's `name_or_path`, and
the `base_model_name_or_path` of every `peft_config` entry all equal the
configured name (and the adapter keys are unchanged). -/
theorem stamp_pretrained_name_spec :
    ∀ (name : String) (m : RehydratedModel),
      (stamp_pretrained_name (some name) true m).name_or_path = name ∧
      (stamp_pretrained_name (some name) true
        m).base_model_name_or_path_field = name ∧
      (∀ kv ∈ (stamp_pretrained_name (some name) true m).peft_config,
        kv.2.base_model_name_or_path = name) ∧
      ((stamp_pretrained_name (some name) true m).peft_config.map
        Prod.fst = m.peft_config.map Prod.fst) := by
  intro name m
  refine ⟨rfl, rfl, ?_, ?_⟩
  · intro kv hkv
    unfold stamp_pretrained_name at hkv
    simp only [if_pos, List.mem_map] at hkv
    obtain ⟨⟨k, v⟩, _, hkv'⟩ := hkv
    rw [← hkv']
  · unfold stamp_pretrained_name
    simp

/-- A concrete two-adapter PEFT model before stamping. -/
def peftModelBefore : RehydratedModel :=
  { name_or_path := "/tmp/local"
    base_model_name_or_path_field := "/tmp/base"
    peft_config :=
      [("default", ⟨"/tmp/base", []⟩), ("other", ⟨"x", []⟩)] }

/-- Witness for C7 on a concrete two-adapter model, also discharging
the per-entry membership hypothesis at the first stamped adapter
entry. -/
theorem stamp_pretrained_name_spec_witness :
    (stamp_pretrained_name (some "meta-llama/Llama-2-7b-hf") true
      peftModelBefore).name_or_path = "meta-llama/Llama-2-7b-hf" ∧
    (stamp_pretrained_name (some "meta-llama/Llama-2-7b-hf") true
      peftModelBefore).base_model_name_or_path_field =
      "meta-llama/Llama-2-7b-hf" ∧
    (("default", PeftConfigEntry.mk "meta-llama/Llama-2-7b-hf" []) :
        String × PeftConfigEntry).2.base_model_name_or_path =
      "meta-llama/Llama-2-7b-hf" :=
  ⟨(stamp_pretrained_name_spec "meta-llama/Llama-2-7b-hf"
      peftModelBefore).1,
    (stamp_pretrained_name_spec "meta-llama/Llama-2-7b-hf"
      peftModelBefore).2.1,
    (stamp_pretrained_name_spec "meta-llama/Llama-2-7b-hf"
      peftModelBefore).2.2.1
      ("default", PeftConfigEntry.mk "meta-llama/Llama-2-7b-hf" [])
      (by decide)⟩

/-! ## License-file discovery (source lines 58–105)

`_LICENSE_FILE_PATTERN = re.compile(r'license(\.[a-z]+|$)',
re.IGNORECASE)` is applied with `.search` to each name in
`os.listdir(local_dir)`, and `_maybe_get_license_filename` returns the
first name with a match (or `None` on `StopIteration`).  With `search`,
the pattern matches when the name contains `license`
(case-insensitively) followed immediately either by the end of the name
or by a dot and at least one ASCII letter (`[a-z]+` under `IGNORECASE`;
the match need not extend to the end of the name).  The claim concerns
the call with no pretrained model name, which skips the re-fetch branch
entirely. -/

/-- A character matched by `[a-z]` under `re.IGNORECASE` (ASCII
letters). -/
def isSearchLetter (c : Char) : Bool :=
  ('a' ≤ c && c ≤ 'z') || ('A' ≤ c && c ≤ 'Z')

/-- What `(\.[a-z]+|$)` accepts at the position right after `license`:
end of the name, or a dot followed by at least one letter (further
characters are unconstrained because `search` does not anchor the
end). -/
def licenseSuffixOk : List Char → Bool
  | [] => true
  | '.' :: c :: _ => isSearchLetter c
  | _ => false

/-- The literal `license`. -/
def licenseToken : List Char := ['l', 'i', 'c', 'e', 'n', 's', 'e']

/-- Does the regex match at this exact position? -/
def licenseAt (cs : List Char) : Bool :=
  ((cs.take 7).map Char.toLower == licenseToken) &&
    licenseSuffixOk (cs.drop 7)

/-- `re.search`: try every position left to right. -/
def licenseSearchFrom : List Char → Bool
  | [] => false
  | c :: rest => licenseAt (c :: rest) || licenseSearchFrom rest

/-- `_LICENSE_FILE_PATTERN.search(file)` is not `None`. -/
def licenseFilePatternSearch (s : String) : Bool :=
  licenseSearchFrom s.toList

/-- Embedding of `_maybe_get_license_filename(local_dir, None)` on the
directory listing `files` (in `os.listdir` order): the first matching
file name, if any. -/
def maybe_get_license_filename (files : List String) : Option String :=
  files.find? licenseFilePatternSearch

/-- The claim's reading of the pattern: the whole name is, up to case,
`license`, optionally followed by a dot and an arbitrary extension. -/
def claimedLicenseName (s : String) : Prop :=
  s.toList.map Char.toLower = licenseToken ∨
    ∃ ext : List Char,
      s.toList.map Char.toLower = licenseToken ++ '.' :: ext

/-- Counterexample to C8 as stated: `license.123` is `license` followed
by the extension `.123`, so the claim (which accepts "any extension")
says it is returned; but the code's pattern requires the extension to
start with a letter, so the code returns `None` for a directory
containing only `license.123`. -/
theorem license_any_extension_cex :
    claimedLicenseName "license.123" ∧
    maybe_get_license_filename ["license.123"] = none := by
  constructor
  · exact Or.inr ⟨['1', '2', '3'], by decide⟩
  · decide

lemma licenseSearchFrom_iff : ∀ cs : List Char,
    licenseSearchFrom cs = true ↔
      ∃ i : Nat,
        ((cs.drop i).take 7).map Char.toLower = licenseToken ∧
          licenseSuffixOk ((cs.drop i).drop 7) = true := by
  intro cs
  induction cs with
  | nil =>
    simp only [licenseSearchFrom, Bool.false_eq_true, false_iff, not_exists]
    intro i hcon
    rw [List.drop_nil] at hcon
    simp [licenseToken] at hcon
  | cons c rest ih =>
    rw [licenseSearchFrom, Bool.or_eq_true, ih]
    constructor
    · rintro (h | ⟨i, h1, h2⟩)
      · rw [licenseAt, Bool.and_eq_true, beq_iff_eq] at h
        exact ⟨0, by simpa using h.1, by simpa using h.2⟩
      · exact ⟨i + 1, by simpa using h1, by simpa using h2⟩
    · rintro ⟨i, h1, h2⟩
      cases i with
      | zero =>
        refine Or.inl ?_
        rw [licenseAt, Bool.and_eq_true, beq_iff_eq]
        exact ⟨by simpa using h1, by simpa using h2⟩
      | succ i =>
        exact Or.inr ⟨i, by simpa using h1, by simpa using h2⟩

/-- C8 (amended): with no pretrained model name supplied,
`_maybe_get_license_filename` returns the first file of the directory
listing whose name contains, case-insensitively, `license` followed
immediately by the end of the name or by a dot and at least one ASCII
letter; it returns `None` exactly when no file matches.  In particular
for a directory containing `LICENSE.txt` and `README.md` it returns
`LICENSE.txt`, and it accepts a bare `license` in any letter case — but
an extension must start with a letter (e.g. `license.123` is not
matched). -/
theorem maybe_get_license_filename_spec :
    (∀ s : String,
      licenseFilePatternSearch s = true ↔
        ∃ i : Nat,
          ((s.toList.drop i).take 7).map Char.toLower = licenseToken ∧
            licenseSuffixOk ((s.toList.drop i).drop 7) = true) ∧
    (∀ files : List String,
      maybe_get_license_filename files = none ↔
        ∀ f ∈ files, licenseFilePatternSearch f = false) ∧
    (∀ (files : List String) (f : String),
      maybe_get_license_filename files = some f →
        licenseFilePatternSearch f = true ∧
        ∃ pre post, files = pre ++ f :: post ∧
          ∀ g ∈ pre, licenseFilePatternSearch g = false) ∧
    (maybe_get_license_filename ["LICENSE.txt", "README.md"] =
        some "LICENSE.txt" ∧
      licenseFilePatternSearch "license" = true ∧
      licenseFilePatternSearch "LiCeNsE.TXT" = true) := by
  refine ⟨?_, ?_, ?_, by decide, by decide, by decide⟩
  · intro s
    exact licenseSearchFrom_iff s.toList
  · intro files
    unfold maybe_get_license_filename
    rw [List.find?_eq_none]
    constructor
    · intro hall f hf
      have := hall f hf
      simpa using this
    · intro hall f hf
      rw [hall f hf]
      simp
  · intro files f hf
    unfold maybe_get_license_filename at hf
    rw [List.find?_eq_some] at hf
    obtain ⟨hp, pre, post, heq, hpre⟩ := hf
    refine ⟨hp, pre, post, heq, ?_⟩
    intro g hg
    have := hpre g hg
    simpa using this

/-- Witness for C8 (amended) at concrete inputs. -/
theorem maybe_get_license_filename_spec_witness :
    (licenseFilePatternSearch "MY_LICENSE" = true ↔
      ∃ i : Nat,
        ((("MY_LICENSE" : String).toList.drop i).take 7).map Char.toLower =
          licenseToken ∧
          licenseSuffixOk ((("MY_LICENSE" : String).toList.drop i).drop 7) =
            true) ∧
    (licenseFilePatternSearch "LICENSE.txt" = true ∧
      ∃ pre post,
        (["README.md", "LICENSE.txt"] : List String) =
          pre ++ "LICENSE.txt" :: post ∧
          ∀ g ∈ pre, licenseFilePatternSearch g = false) :=
  ⟨maybe_get_license_filename_spec.1 "MY_LICENSE",
    maybe_get_license_filename_spec.2.2.1 ["README.md", "LICENSE.txt"]
      "LICENSE.txt" (by decide)⟩
